import Mathlib

/-!
Verification development for the Finanzguru CSV parser core
(`src/sankey_generator/services/finanzguru_csv_parser_service.py`).

The transaction table is embedded as a list of rows, each row a list of
(column name, cell value) pairs.  The pandas pre-pass `df.fillna('empty')`
is folded into cell lookup: a missing column reads as "empty".  Amount
cells are locale-formatted decimal strings; monetary values are embedded
as rationals.  A failing `astype(float)` conversion (a FormatError in the
spec, a ValueError raised by pandas) and the explicitly raised
configuration ValueErrors are embedded as an `Except` error type.
-/

/-- Errors surfaced by the parser: configuration errors raised explicitly
in `parse_csv` (ValueError in the source), and amount-format errors raised
by the numeric conversion (`astype(float)`). -/
inductive ParseError where
  | configError (msg : String)
  | formatError (raw : String)

/-- One row of the transaction table: a mapping from column name to text
cell value. -/
structure Row where
  cells : List (String × String)

/-- Cell access.  The source runs `df.fillna('empty')` on load, so a
missing cell reads as the literal string "empty". -/
def Row.get (r : Row) (c : String) : String :=
  match r.cells.lookup c with
  | some v => v
  | none => "empty"

/-- Case-sensitive substring containment on character lists ("needle in
haystack"); an empty needle is contained in everything, as with the
Python `in` operator and `pandas.Series.str.contains`. -/
def listContainsSub : List Char → List Char → Bool
  | [], pat => pat.isEmpty
  | c :: t, pat => pat.isPrefixOf (c :: t) || listContainsSub t pat

/-- `strContains hay pat`: `pat in hay`.  The source applies
`Series.str.contains` to plain category values, modelled here as literal
substring containment. -/
def strContains (hay pat : String) : Bool :=
  listContainsSub hay.toList pat.toList

/-- Lowercasing (`Series.str.lower` and Python `str.lower`), applied
characterwise. -/
def strLower (s : String) : String :=
  String.mk (s.data.map Char.toLower)

/-- Decimal digit run to a natural number. -/
def digitsVal (l : List Char) : ℕ :=
  l.foldl (fun n c => 10 * n + (c.toNat - 48)) 0

/-- The fragment of Python `float(...)` the amount cells use: an optional
sign, then digits with at most one decimal point and at least one digit. -/
def pyFloat? (l : List Char) : Option ℚ :=
  let signAndBody : ℚ × List Char :=
    match l with
    | '-' :: r => (-1, r)
    | '+' :: r => (1, r)
    | r => (1, r)
  let sgn := signAndBody.1
  let body := signAndBody.2
  let intPart := body.takeWhile (fun c => c ≠ '.')
  match body.dropWhile (fun c => c ≠ '.') with
  | [] =>
    if intPart ≠ [] ∧ intPart.all Char.isDigit then
      some (sgn * (digitsVal intPart : ℚ))
    else none
  | _ :: frac =>
    if (intPart ++ frac) ≠ [] ∧ (intPart ++ frac).all Char.isDigit then
      some (sgn * ((digitsVal intPart : ℚ) + (digitsVal frac : ℚ) / (10 ^ frac.length : ℚ)))
    else none

/-- Numeric normalizer: `df.str.replace('.', '').str.replace(',', '.')
.astype(float)` applied to one cell — strip the thousands separator,
turn the decimal comma into a dot, parse. -/
def normalizeAmount (raw : String) : Except ParseError ℚ :=
  match pyFloat? ((raw.toList.filter (fun c => c ≠ '.')).map
      (fun c => if c = ',' then '.' else c)) with
  | some q => .ok q
  | none => .error (.formatError raw)

/-- Conversion and summation of a column of cells (the `astype(float)`
then `.sum()` part of `_get_sum`); the first unparseable cell aborts. -/
def sumAmounts : List String → Except ParseError ℚ
  | [] => .ok 0
  | c :: cs =>
    match normalizeAmount c with
    | .error e => .error e
    | .ok q =>
      match sumAmounts cs with
      | .error e => .error e
      | .ok r => .ok (q + r)

/-- `_get_sum`: sum the (normalized) column, then flip the sign if the
total is negative. -/
def get_sum (cells : List String) : Except ParseError ℚ :=
  match sumAmounts cells with
  | .error e => .error e
  | .ok s => .ok (if s < 0 then s * -1 else s)

/-- Modelled from the spec: `DataFrameFilter` from the missing
`models/config.py` — "(column name, set of allowed values). A row passes
if its value in column name is a member of the allowed-value set." -/
structure DataFrameFilter where
  csv_column_name : String
  csv_value_filters : List String

/-- Modelled from the spec: `IncomeFilter` from the missing
`models/config.py` — "(sankey label, csv column name, list of value
substrings)". -/
structure IncomeFilter where
  sankey_label : String
  csv_column_name : String
  csv_value_filters : List String

/-- Modelled from the spec: `AccountSource` from the missing
`models/config.py` — "(account name, account identifier, ordered list of
IncomeFilter)". -/
structure AccountSource where
  account_name : String
  iban : String
  income_filters : List IncomeFilter

/-- Modelled from the spec: `IssueCategory` from the missing
`models/config.py` — "a singly-linked chain: each level names one CSV
column and optionally points to exactly one next level (sub_category)".
`leaf c` is a level with `sub_category = None`; `node c s` is a level
whose `sub_category` is `s`. -/
inductive IssueCategory where
  | leaf (csv_column_name : String)
  | node (csv_column_name : String) (sub : IssueCategory)

/-- The CSV column this level classifies by. -/
def IssueCategory.csv_column_name : IssueCategory → String
  | .leaf c => c
  | .node c _ => c

/-- The optional next level (`sub_category` in the source model). -/
def IssueCategory.sub_category : IssueCategory → Option IssueCategory
  | .leaf _ => none
  | .node _ s => some s

/-- Modelled from the spec: `get_depth()` of the missing
`models/config.py` — "number of chained levels". -/
def IssueCategory.get_depth : IssueCategory → ℕ
  | .leaf _ => 1
  | .node _ s => 1 + s.get_depth

/-- Modelled from the spec: `SankeyNode` of the missing
`models/sankey_node.py` — "(amount, label, ordered list of linked child
SankeyNode)"; `add_linked_node` appends to the child list, so a node
built by the aggregator carries its children in attachment order. -/
inductive SankeyNode where
  | mk (amount : ℚ) (label : String) (linked_nodes : List SankeyNode)

/-- Monetary weight of the node. -/
def SankeyNode.amount : SankeyNode → ℚ
  | .mk a _ _ => a

/-- Display label of the node. -/
def SankeyNode.label : SankeyNode → String
  | .mk _ l _ => l

/-- Ordered linked children of the node. -/
def SankeyNode.linked_nodes : SankeyNode → List SankeyNode
  | .mk _ _ ns => ns

/-- Modelled from the spec: `SankeyRootNode` of the missing
`models/sankey_income_node.py` — a root with two distinguished child
groups, `incomes` and `issues`; `add_incomes`/`add_issues` extend the
groups and `add_issue` appends one node to `issues`. -/
structure SankeyRootNode where
  label : String
  incomes : List SankeyNode
  issues : List SankeyNode

/-- Modelled from the spec: `get_income_amount()` — sum of the income
node amounts. -/
def SankeyRootNode.get_income_amount (r : SankeyRootNode) : ℚ :=
  (r.incomes.map SankeyNode.amount).sum

/-- Modelled from the spec: `get_issues_amount()` — sum of the issue
node amounts, top level only, non-recursive. -/
def SankeyRootNode.get_issues_amount (r : SankeyRootNode) : ℚ :=
  (r.issues.map SankeyNode.amount).sum

/-- The parser configuration held by `FinanzguruCsvParserService`
(constructor arguments plus the `configure_parser` fields).  The field
name `..._fitlers` keeps the spelling of the source. -/
structure ParserConfig where
  issues_hierarchy : IssueCategory
  analysis_year_column_name : String
  analysis_month_column_name : Option String
  income_node_name : String
  amount_out_name : String
  other_income_name : String
  not_used_income_name : String
  income_sources : List AccountSource
  income_data_frame_fitlers : List DataFrameFilter
  issues_data_frame_fitlers : List DataFrameFilter

/-- `_get_sum_for_value_in_column`: for each value in the filter list,
select the rows whose column value (lowercased) contains the value
(lowercased), sum the amount column of that subset with `_get_sum`, and
accumulate the per-value sums. -/
def get_sum_for_value_in_column (df : List Row) (column : String)
    (values_filter : List String) (amount_out_name : String) :
    Except ParseError ℚ :=
  match values_filter with
  | [] => .ok 0
  | v :: vs =>
    match get_sum ((df.filter
        (fun r => strContains (strLower (r.get column)) (strLower v))).map
        (fun r => r.get amount_out_name)) with
    | .error e => .error e
    | .ok s =>
      match get_sum_for_value_in_column df column vs amount_out_name with
      | .error e => .error e
      | .ok rest => .ok (s + rest)

/-- Iterated narrowing by `DataFrameFilter`s (the `isin` loops in
`_create_income_nodes` and `_create_all_issue_nodes`).  The boolean
masks are built over the original frame but aligned to the current
narrowed index by `.loc`, so successive filters compose by
intersection. -/
def applyDataFrameFilters (df : List Row) (fs : List DataFrameFilter) :
    List Row :=
  fs.foldl (fun acc f =>
    acc.filter (fun r => f.csv_value_filters.contains (r.get f.csv_column_name))) df

/-- Zero-padding of the month in the f-string `{month:02d}`. -/
def pad2 (m : ℤ) : String :=
  if 0 ≤ m ∧ m < 10 then "0" ++ toString m else toString m

/-- `_get_relevant_data_from_csv` after the CSV has been read and
`fillna` applied (cell lookup already yields "empty" for missing
cells): month 13 selects by the year column, otherwise by exact match
of the month column with `f'{year}-{month:02d}'`.  The pandas year
column, parsed as integers, is modelled by comparing the cell against
the decimal string of the year. -/
def get_relevant_data_from_csv (df : List Row)
    (analysis_year_column_name analysis_month_column_name : String)
    (year month : ℤ) : List Row :=
  if month = 13 then
    df.filter (fun r => r.get analysis_year_column_name = toString year)
  else
    df.filter (fun r =>
      r.get analysis_month_column_name = toString year ++ "-" ++ pad2 month)

/-- The inner filter loop of `_create_income_nodes`: one SankeyNode per
`IncomeFilter`, labelled with its sankey label. -/
def income_nodes_for_filters (df : List Row) (fs : List IncomeFilter)
    (amount_out_name : String) : Except ParseError (List SankeyNode) :=
  match fs with
  | [] => .ok []
  | f :: rest =>
    match get_sum_for_value_in_column df f.csv_column_name
        f.csv_value_filters amount_out_name with
    | .error e => .error e
    | .ok s =>
      match income_nodes_for_filters df rest amount_out_name with
      | .error e => .error e
      | .ok ns => .ok (SankeyNode.mk s f.sankey_label [] :: ns)

/-- The outer account loop of `_create_income_nodes`: nodes appear in
account-then-filter declaration order. -/
def income_nodes_for_accounts (df : List Row) (accounts : List AccountSource)
    (amount_out_name : String) : Except ParseError (List SankeyNode) :=
  match accounts with
  | [] => .ok []
  | a :: rest =>
    match income_nodes_for_filters df a.income_filters amount_out_name with
    | .error e => .error e
    | .ok ns =>
      match income_nodes_for_accounts df rest amount_out_name with
      | .error e => .error e
      | .ok ms => .ok (ns ++ ms)

/-- `_create_income_nodes`: narrow by the income filters, emit one node
per declared income filter, then append the "other income" node whose
amount is the absolute total of the amount column minus every emitted
node amount. -/
def create_income_nodes (df : List Row) (income_accounts : List AccountSource)
    (income_data_frame_fitlers : List DataFrameFilter)
    (amount_out_name other_income_name : String) :
    Except ParseError (List SankeyNode) :=
  let income_df := applyDataFrameFilters df income_data_frame_fitlers
  match income_nodes_for_accounts income_df income_accounts amount_out_name with
  | .error e => .error e
  | .ok income_nodes =>
    match get_sum (income_df.map (fun r => r.get amount_out_name)) with
    | .error e => .error e
    | .ok total =>
      .ok (income_nodes ++
        [SankeyNode.mk (income_nodes.foldl (fun acc n => acc - n.amount) total)
          other_income_name []])

/-- First-occurrence-order distinct values of a column, as produced by
`pandas.Series.unique()`; `seen` carries the values already emitted. -/
def dedupFirst : List String → List String → List String
  | [], _ => []
  | x :: xs, seen =>
    if x ∈ seen then dedupFirst xs seen else x :: dedupFirst xs (x :: seen)

/-- The body of the `for category in ...unique()` loop of
`_create_issue_nodes`, for one level of the hierarchy.  `sub` is the
recursive call on `issue_category.sub_category` (supplied by
`create_issue_nodes_cat`; for a level without sub-category it is the
empty-result behaviour of the None check).  For each distinct value `v`:
the sum is taken for the original value; if `v` was already used the
display label is rewritten to `' ' + v`; the narrowed `category_df` is
computed from the (possibly rewritten) label, exactly as the source
does; the label is recorded in `used_category_names` before recursing;
the returned sub-nodes become the linked children. -/
def processValuesWith
    (sub : List Row → List String → ℤ → Except ParseError (List SankeyNode × List String))
    (issues_df : List Row) (column : String) (amount_out_name : String)
    (vals : List String) (used_category_names : List String)
    (issue_depth : ℤ) : Except ParseError (List SankeyNode × List String) :=
  match vals with
  | [] => .ok ([], used_category_names)
  | v :: vs =>
    match get_sum_for_value_in_column issues_df column [v] amount_out_name with
    | .error e => .error e
    | .ok s =>
      let category := if v ∈ used_category_names then " " ++ v else v
      let category_df := issues_df.filter
        (fun r => strContains (strLower (r.get column)) (strLower category))
      match sub category_df (used_category_names ++ [category]) (issue_depth - 1) with
      | .error e => .error e
      | .ok su =>
        match processValuesWith sub issues_df column amount_out_name vs su.2 issue_depth with
        | .error e => .error e
        | .ok rest => .ok (SankeyNode.mk s category su.1 :: rest.1, rest.2)

/-- `_create_issue_nodes` specialised to a present (non-None) category
chain: return nothing below depth 1, otherwise run the loop over the
first-occurrence distinct values of this level's column, recursing into
the sub-category (for a `leaf` level the recursion hits the
`issue_category is None` check and yields no nodes). -/
def create_issue_nodes_cat : IssueCategory → List Row → List String → ℤ →
    String → Except ParseError (List SankeyNode × List String)
  | .leaf col, issues_df, used_category_names, issue_depth, amount_out_name =>
    if issue_depth < 1 then .ok ([], used_category_names)
    else
      processValuesWith (fun _ u _ => .ok ([], u)) issues_df col amount_out_name
        (dedupFirst (issues_df.map (fun r => r.get col)) [])
        used_category_names issue_depth
  | .node col sc, issues_df, used_category_names, issue_depth, amount_out_name =>
    if issue_depth < 1 then .ok ([], used_category_names)
    else
      processValuesWith (fun d u i => create_issue_nodes_cat sc d u i amount_out_name)
        issues_df col amount_out_name
        (dedupFirst (issues_df.map (fun r => r.get col)) [])
        used_category_names issue_depth
termination_by structural cat => cat

/-- `_create_issue_nodes`: the `issue_category is None` check, then the
per-level recursion.  The returned pair is the built node list together
with the final state of the shared `used_category_names` list. -/
def create_issue_nodes (issues_df : List Row)
    (issue_category : Option IssueCategory) (used_category_names : List String)
    (issue_depth : ℤ) (amount_out_name : String) :
    Except ParseError (List SankeyNode × List String) :=
  match issue_category with
  | none => .ok ([], used_category_names)
  | some cat =>
    create_issue_nodes_cat cat issues_df used_category_names issue_depth amount_out_name

/-- `_create_all_issue_nodes`: narrow by the issue filters, then build
the issue tree. -/
def create_all_issue_nodes (df : List Row) (issue_category : IssueCategory)
    (used_category_names : List String) (issue_depth : ℤ)
    (issues_data_frame_fitlers : List DataFrameFilter)
    (amount_out_name : String) :
    Except ParseError (List SankeyNode × List String) :=
  create_issue_nodes (applyDataFrameFilters df issues_data_frame_fitlers)
    (some issue_category) used_category_names issue_depth amount_out_name

/-- `parse_csv`: depth validation, month-column validation, period
selection, income nodes, issue tree (fresh `used_category_names`), and
the conditional "not used income" node appended to the issues group. -/
def parse_csv (cfg : ParserConfig) (table : List Row)
    (year month issue_depth : ℤ) : Except ParseError SankeyRootNode :=
  if issue_depth < 1 then
    .error (.configError "issue_level must be greater than 0")
  else
    let max_issue_level : ℕ := cfg.issues_hierarchy.get_depth
    if issue_depth > (max_issue_level : ℤ) then
      .error (.configError
        ("issue_level must be less than or equal to " ++ toString max_issue_level))
    else
      match cfg.analysis_month_column_name with
      | none =>
        .error (.configError "analysis_month_column_name must be set if month is not None")
      | some month_column =>
        let df := get_relevant_data_from_csv table
          cfg.analysis_year_column_name month_column year month
        match create_income_nodes df cfg.income_sources
            cfg.income_data_frame_fitlers cfg.amount_out_name
            cfg.other_income_name with
        | .error e => .error e
        | .ok income_nodes =>
          match create_all_issue_nodes df cfg.issues_hierarchy [] issue_depth
              cfg.issues_data_frame_fitlers cfg.amount_out_name with
          | .error e => .error e
          | .ok issues =>
            let root : SankeyRootNode :=
              ⟨cfg.income_node_name, income_nodes, issues.1⟩
            let unused_income := root.get_income_amount - root.get_issues_amount
            if unused_income > 0 then
              .ok { root with issues := root.issues ++
                [SankeyNode.mk unused_income cfg.not_used_income_name []] }
            else .ok root

/-- The labels of a node forest in depth-first preorder — the order in
which `_create_issue_nodes` appends them to `used_category_names`. -/
def preorderLabels : List SankeyNode → List String
  | [] => []
  | .mk _ l subs :: rest => l :: (preorderLabels subs ++ preorderLabels rest)

/-- Drop one leading space from a character list, if present. -/
def stripSpace1 : List Char → List Char
  | [] => []
  | c :: r => if c = ' ' then r else c :: r

/-- Drop one leading space from a string, if present: recovers the
underlying category value from a display label produced by
`_create_issue_nodes` when no cell value itself starts with a space. -/
def strip1 (s : String) : String :=
  String.mk (stripSpace1 s.data)

/-- Whether a string starts with a space character. -/
def startsWithSpace (s : String) : Bool :=
  match s.data with
  | [] => false
  | c :: _ => c = ' '

/-- The label discipline of `_create_issue_nodes`, checked along a label
list in emission order: each label is its underlying value, or the value
prefixed by one space exactly when the value was already used; every
emitted label is recorded before the next check. -/
def labelsOk : List String → List String → Prop
  | _, [] => True
  | used, l :: rest =>
    (l = if strip1 l ∈ used then " " ++ strip1 l else strip1 l) ∧
      labelsOk (used ++ [l]) rest

/-- No cell value of the table starts with a space. -/
def spaceFreeTable (df : List Row) : Prop :=
  ∀ r ∈ df, ∀ p ∈ r.cells, startsWithSpace p.2 = false

/-- Two-level test hierarchy: column "c1", then column "c2". -/
def chainTwo : IssueCategory := .node "c1" (.leaf "c2")

/-- Table in which the value "b" occurs in column "c1" of one row and in
column "c2" of the other, so its second traversal occurrence is
relabelled. -/
def tableDupB : List Row :=
  [⟨[("c1", "a"), ("c2", "b"), ("amt", "1,00")]⟩,
   ⟨[("c1", "b"), ("c2", "c"), ("amt", "2,00")]⟩]

/-- Table in which the value "v" occurs at three positions of the
two-level hierarchy (column "c2" of each of three different top-level
categories). -/
def tableTripleV : List Row :=
  [⟨[("mon", "2024-03"), ("c1", "a"), ("c2", "v"), ("amt", "1,00")]⟩,
   ⟨[("mon", "2024-03"), ("c1", "b"), ("c2", "v"), ("amt", "1,00")]⟩,
   ⟨[("mon", "2024-03"), ("c1", "c"), ("c2", "v"), ("amt", "1,00")]⟩]

/-- Configuration with the two-level hierarchy and no account sources or
frame filters. -/
def cfgTriple : ParserConfig :=
  { issues_hierarchy := chainTwo
    analysis_year_column_name := "year"
    analysis_month_column_name := some "mon"
    income_node_name := "inc"
    amount_out_name := "amt"
    other_income_name := "oth"
    not_used_income_name := "nui"
    income_sources := []
    income_data_frame_fitlers := []
    issues_data_frame_fitlers := [] }

/-- Table in which the value "Rent" occurs at exactly two positions of
the two-level hierarchy. -/
def tableRentTwice : List Row :=
  [⟨[("c1", "x"), ("c2", "Rent"), ("amt", "1,00")]⟩,
   ⟨[("c1", "Rent"), ("c2", "y"), ("amt", "2,00")]⟩]

/-- One income account with one declared income filter. -/
def acctMain : AccountSource :=
  ⟨"Main", "DE00", [⟨"Salary", "who", ["salary"]⟩]⟩

/-- Two-row income table: one row matches the salary filter, one does
not. -/
def tableIncome : List Row :=
  [⟨[("who", "Salary Corp"), ("amt", "10,00")]⟩,
   ⟨[("who", "gift"), ("amt", "5,00")]⟩]

/-- Single-level hierarchy over column "cat". -/
def chainCat : IssueCategory := .leaf "cat"

/-- Configuration with the single-level hierarchy and an issue frame
filter keeping only rows whose "typ" column is "issue". -/
def cfgCatFiltered : ParserConfig :=
  { issues_hierarchy := chainCat
    analysis_year_column_name := "year"
    analysis_month_column_name := some "mon"
    income_node_name := "inc"
    amount_out_name := "amt"
    other_income_name := "oth"
    not_used_income_name := "nui"
    income_sources := []
    income_data_frame_fitlers := []
    issues_data_frame_fitlers := [⟨"typ", ["issue"]⟩] }

/-- Table for the unused-income scenario: total income 5, categorized
issues 3. -/
def tableC4 : List Row :=
  [⟨[("mon", "2024-03"), ("typ", "issue"), ("cat", "food"), ("amt", "3,00")]⟩,
   ⟨[("mon", "2024-03"), ("typ", "inc"), ("cat", "x"), ("amt", "2,00")]⟩]

/-- Configuration with the single-level hierarchy, one income account
and no frame filters. -/
def cfgCatIncome : ParserConfig :=
  { issues_hierarchy := chainCat
    analysis_year_column_name := "year"
    analysis_month_column_name := some "mon"
    income_node_name := "inc"
    amount_out_name := "amt"
    other_income_name := "oth"
    not_used_income_name := "nui"
    income_sources := [acctMain]
    income_data_frame_fitlers := []
    issues_data_frame_fitlers := [] }

/-- Table whose only row is in month 2024-05, so a 2024-03 selection is
empty. -/
def tableMay : List Row :=
  [⟨[("mon", "2024-05"), ("who", "Salary Corp"), ("cat", "food"), ("amt", "9,00")]⟩]

/-- Row of month 2024-03. -/
def rowM03 : Row := ⟨[("year", "2024"), ("mon", "2024-03"), ("amt", "1,00")]⟩

/-- Row of month 2024-04. -/
def rowM04 : Row := ⟨[("year", "2024"), ("mon", "2024-04"), ("amt", "2,00")]⟩

/-- Table with two sibling category values, "Foo" a proper substring of
"Food". -/
def tableFoo : List Row :=
  [⟨[("cat1", "Food"), ("amt", "10,00")]⟩,
   ⟨[("cat1", "Foo"), ("amt", "5,00")]⟩]

/-- Single-level hierarchy over column "cat1". -/
def chainCat1 : IssueCategory := .leaf "cat1"

lemma dedupFirst_subset {l seen : List String} {x : String}
    (h : x ∈ dedupFirst l seen) : x ∈ l := by
  induction l generalizing seen with
  | nil => simp [dedupFirst] at h
  | cons y ys ih =>
    rw [dedupFirst] at h
    by_cases hy : y ∈ seen
    · simp only [hy, if_true] at h
      exact List.mem_cons_of_mem _ (ih h)
    · simp only [hy, if_false] at h
      rcases List.mem_cons.mp h with h | h
      · exact h ▸ List.mem_cons_self _ _
      · exact List.mem_cons_of_mem _ (ih h)

lemma lookup_mem {c v : String} : ∀ {cells : List (String × String)},
    cells.lookup c = some v → (∃ p ∈ cells, v = p.2)
  | [], h => by simp [List.lookup] at h
  | (k, w) :: rest, h => by
    rw [List.lookup] at h
    by_cases hk : c = k
    · refine ⟨(k, w), List.mem_cons_self _ _, ?_⟩
      simp only [hk, beq_self_eq_true] at h
      exact (Option.some.inj h).symm
    · have : (c == k) = false := beq_eq_false_iff_ne.mpr hk
      rw [this] at h
      obtain ⟨p, hp, hv⟩ := lookup_mem h
      exact ⟨p, List.mem_cons_of_mem _ hp, hv⟩

lemma row_get_cases (r : Row) (c : String) :
    r.get c = "empty" ∨ ∃ p ∈ r.cells, r.get c = p.2 := by
  rw [Row.get]
  cases h : r.cells.lookup c with
  | none => exact Or.inl rfl
  | some v =>
    obtain ⟨p, hp, hv⟩ := lookup_mem h
    exact Or.inr ⟨p, hp, hv⟩

lemma string_mk_data (s : String) : String.mk s.data = s := rfl

lemma data_space_append (v : String) : (" " ++ v).data = ' ' :: v.data := by
  rw [String.data_append]
  rfl

lemma strip1_space_append (v : String) : strip1 (" " ++ v) = v := by
  rw [strip1, data_space_append, stripSpace1]
  simp [string_mk_data]

lemma sws_space_append (v : String) : startsWithSpace (" " ++ v) = true := by
  rw [startsWithSpace, data_space_append]
  simp

lemma strip1_of_not_sws {v : String} (h : startsWithSpace v = false) :
    strip1 v = v := by
  rw [startsWithSpace] at h
  rw [strip1]
  cases hd : v.data with
  | nil => rw [stripSpace1, ← hd, string_mk_data]
  | cons c t =>
    rw [hd] at h
    simp only [decide_eq_false_iff_not] at h
    rw [stripSpace1, if_neg h, ← hd, string_mk_data]

lemma ne_space_append_of_not_sws {v w : String}
    (h : startsWithSpace v = false) : v ≠ " " ++ w := by
  intro hv
  rw [hv, sws_space_append] at h
  exact absurd h (by simp)

lemma space_append_inj {v w : String} (h : (" " ++ v : String) = " " ++ w) :
    v = w := by
  have := congrArg String.data h
  rw [data_space_append, data_space_append] at this
  exact String.ext (List.cons.inj this).2

lemma labelsOk_append_of : ∀ {A B u : List String},
    labelsOk u A → labelsOk (u ++ A) B → labelsOk u (A ++ B)
  | [], B, u, _, hB => by simpa using hB
  | a :: A, B, u, hA, hB => by
    rw [labelsOk] at hA
    refine ⟨hA.1, ?_⟩
    have hB' : labelsOk ((u ++ [a]) ++ A) B := by
      rw [List.append_assoc, List.singleton_append]
      exact hB
    exact labelsOk_append_of hA.2 hB'

lemma count_map_strip1_pos {used : List String} {v : String}
    (hv : v ∈ used) (hsw : startsWithSpace v = false) :
    1 ≤ (used.map strip1).count v := by
  have : strip1 v ∈ used.map strip1 := List.mem_map_of_mem strip1 hv
  rw [strip1_of_not_sws hsw] at this
  exact List.count_pos_iff_mem.mpr this

lemma labelsOk_nodup : ∀ (L used : List String),
    labelsOk used L →
    (∀ l ∈ L, startsWithSpace (strip1 l) = false) →
    (∀ l ∈ used, startsWithSpace (strip1 l) = false) →
    (∀ v : String, (((used ++ L).map strip1).count v) ≤ 2) →
    used.Nodup →
    (∀ v : String, (" " ++ v) ∈ used → 2 ≤ ((used.map strip1).count v)) →
    (used ++ L).Nodup
  | [], used, _, _, _, _, hnd, _ => by simpa using hnd
  | l :: L, used, hok, hL1, hu1, hcount, hnd, hinv => by
    rw [labelsOk] at hok
    obtain ⟨hl, hrest⟩ := hok
    have hv1 : startsWithSpace (strip1 l) = false := hL1 l (List.mem_cons_self _ _)
    by_cases hv : strip1 l ∈ used
    · -- the underlying value was used before: the label is the
      -- space-prefixed variant
      rw [if_pos hv] at hl
      have hstrip : strip1 l = strip1 l := rfl
      -- the new label is not already in `used`
      have hnotmem : l ∉ used := by
        intro hmem
        have h2 : 2 ≤ ((used.map strip1).count (strip1 l)) := by
          have := hinv (strip1 l) (hl ▸ hmem)
          exact this
        have h3 : ((used ++ l :: L).map strip1).count (strip1 l) ≤ 2 :=
          hcount (strip1 l)
        rw [List.map_append, List.count_append, List.map_cons,
          List.count_cons] at h3
        simp at h3
        omega
      have hnd' : (used ++ [l]).Nodup := by
        rw [List.nodup_append]
        exact ⟨hnd, List.nodup_singleton l, by simpa using hnotmem⟩
      have hu1' : ∀ x ∈ used ++ [l], startsWithSpace (strip1 x) = false := by
        intro x hx
        rcases List.mem_append.mp hx with hx | hx
        · exact hu1 x hx
        · rw [List.mem_singleton.mp hx]; exact hv1
      have hcount' : ∀ v : String, (((used ++ [l]) ++ L).map strip1).count v ≤ 2 := by
        intro v
        rw [List.append_assoc, List.singleton_append]
        exact hcount v
      have hinv' : ∀ v : String, (" " ++ v) ∈ used ++ [l] →
          2 ≤ (((used ++ [l]).map strip1).count v) := by
        intro v hmem
        rw [List.map_append, List.count_append]
        rcases List.mem_append.mp hmem with hm | hm
        · have := hinv v hm
          omega
        · have hlv : l = " " ++ v := (List.mem_singleton.mp hm).symm
          have hveq : strip1 l = v := by rw [hlv, strip1_space_append]
          have h1 : 1 ≤ ((used.map strip1).count v) :=
            hveq ▸ count_map_strip1_pos hv (hveq ▸ hv1)
          have h2 : ((([l]).map strip1).count v) = 1 := by
            simp [hveq]
          omega
      have ih := labelsOk_nodup L (used ++ [l]) hrest
        (fun x hx => hL1 x (List.mem_cons_of_mem _ hx)) hu1' hcount' hnd' hinv'
      rw [List.append_assoc, List.singleton_append] at ih
      exact ih
    · -- fresh underlying value: the label is the value itself
      rw [if_neg hv] at hl
      have hnotmem : l ∉ used := hl ▸ hv
      have hswl : startsWithSpace l = false := by
        conv_lhs => rw [hl]
        exact hv1
      have hnd' : (used ++ [l]).Nodup := by
        rw [List.nodup_append]
        exact ⟨hnd, List.nodup_singleton l, by simpa using hnotmem⟩
      have hu1' : ∀ x ∈ used ++ [l], startsWithSpace (strip1 x) = false := by
        intro x hx
        rcases List.mem_append.mp hx with hx | hx
        · exact hu1 x hx
        · rw [List.mem_singleton.mp hx]; exact hv1
      have hcount' : ∀ v : String, (((used ++ [l]) ++ L).map strip1).count v ≤ 2 := by
        intro v
        rw [List.append_assoc, List.singleton_append]
        exact hcount v
      have hinv' : ∀ v : String, (" " ++ v) ∈ used ++ [l] →
          2 ≤ (((used ++ [l]).map strip1).count v) := by
        intro v hmem
        rw [List.map_append, List.count_append]
        rcases List.mem_append.mp hmem with hm | hm
        · have := hinv v hm
          omega
        · exfalso
          have hlv : l = " " ++ v := (List.mem_singleton.mp hm).symm
          have hsp : startsWithSpace l = true := by
            rw [hlv]; exact sws_space_append v
          rw [hsp] at hswl
          exact absurd hswl (by simp)
      have ih := labelsOk_nodup L (used ++ [l]) hrest
        (fun x hx => hL1 x (List.mem_cons_of_mem _ hx)) hu1' hcount' hnd' hinv'
      rw [List.append_assoc, List.singleton_append] at ih
      exact ih

lemma spaceFree_filter {df : List Row} (p : Row → Bool)
    (h : spaceFreeTable df) : spaceFreeTable (df.filter p) :=
  fun r hr => h r (List.mem_of_mem_filter hr)

lemma sws_get {df : List Row} {r : Row} (h : spaceFreeTable df)
    (hr : r ∈ df) (c : String) : startsWithSpace (r.get c) = false := by
  rcases row_get_cases r c with hc | ⟨p, hp, hc⟩
  · rw [hc]; decide
  · rw [hc]; exact h r hr p hp

lemma key_pv_glue {used : List String} {category v : String}
    {su1 rest1 : List SankeyNode} {su2 rest2 : List String} {s : ℚ}
    (hvsw : startsWithSpace v = false)
    (hcat : category = if v ∈ used then " " ++ v else v)
    (hsu : su2 = (used ++ [category]) ++ preorderLabels su1)
    (hsok : labelsOk (used ++ [category]) (preorderLabels su1))
    (hssp : ∀ l ∈ preorderLabels su1, startsWithSpace (strip1 l) = false)
    (hru : rest2 = su2 ++ preorderLabels rest1)
    (hrok : labelsOk su2 (preorderLabels rest1))
    (hrsp : ∀ l ∈ preorderLabels rest1, startsWithSpace (strip1 l) = false) :
    rest2 = used ++ preorderLabels (SankeyNode.mk s category su1 :: rest1) ∧
    labelsOk used (preorderLabels (SankeyNode.mk s category su1 :: rest1)) ∧
    ∀ l ∈ preorderLabels (SankeyNode.mk s category su1 :: rest1),
      startsWithSpace (strip1 l) = false := by
  have hstripcat : strip1 category = v := by
    by_cases hv : v ∈ used
    · rw [hcat, if_pos hv, strip1_space_append]
    · rw [hcat, if_neg hv]
      exact strip1_of_not_sws hvsw
  have pre : preorderLabels (SankeyNode.mk s category su1 :: rest1) =
      category :: (preorderLabels su1 ++ preorderLabels rest1) := by
    simp [preorderLabels]
  rw [pre]
  refine ⟨?_, ?_, ?_⟩
  · rw [hru, hsu]
    simp [List.append_assoc]
  · rw [labelsOk]
    refine ⟨?_, ?_⟩
    · rw [hstripcat]
      exact hcat
    · refine labelsOk_append_of hsok ?_
      rw [← hsu]
      exact hrok
  · intro l hl
    rcases List.mem_cons.mp hl with hl | hl
    · rw [hl, hstripcat]
      exact hvsw
    · rcases List.mem_append.mp hl with hl | hl
      · exact hssp l hl
      · exact hrsp l hl

lemma key_pv
    (sub : List Row → List String → ℤ → Except ParseError (List SankeyNode × List String))
    (hs : ∀ df u d ns u2, spaceFreeTable df → sub df u d = .ok (ns, u2) →
      u2 = u ++ preorderLabels ns ∧ labelsOk u (preorderLabels ns) ∧
      ∀ l ∈ preorderLabels ns, startsWithSpace (strip1 l) = false) :
    ∀ (vals : List String) (df : List Row) (col amt : String)
      (used : List String) (d : ℤ) (ns : List SankeyNode) (u2 : List String),
      spaceFreeTable df → (∀ v ∈ vals, startsWithSpace v = false) →
      processValuesWith sub df col amt vals used d = .ok (ns, u2) →
      u2 = used ++ preorderLabels ns ∧ labelsOk used (preorderLabels ns) ∧
      ∀ l ∈ preorderLabels ns, startsWithSpace (strip1 l) = false := by
  intro vals
  induction vals with
  | nil =>
    intro df col amt used d ns u2 _ _ hrun
    rw [processValuesWith] at hrun
    simp only [Except.ok.injEq, Prod.mk.injEq] at hrun
    obtain ⟨h1, h2⟩ := hrun
    subst h1
    subst h2
    simp [preorderLabels, labelsOk]
  | cons v vs ih =>
    intro df col amt used d ns u2 hdf hvals hrun
    have hvsw : startsWithSpace v = false := hvals v (List.mem_cons_self _ _)
    rw [processValuesWith] at hrun
    split at hrun
    · exact absurd hrun (by simp)
    · rename_i s h1
      simp only [] at hrun
      by_cases hv : v ∈ used
      · simp only [if_pos hv] at hrun
        split at hrun
        · exact absurd hrun (by simp)
        · rename_i su h2
          obtain ⟨su1, su2⟩ := su
          split at hrun
          · exact absurd hrun (by simp)
          · rename_i rest h3
            obtain ⟨rest1, rest2⟩ := rest
            simp only [Except.ok.injEq, Prod.mk.injEq] at hrun
            obtain ⟨hns, hu2⟩ := hrun
            subst hns
            subst hu2
            obtain ⟨hsu, hsok, hssp⟩ :=
              hs _ _ _ _ _ (spaceFree_filter _ hdf) h2
            obtain ⟨hru, hrok, hrsp⟩ := ih df col amt su2 d rest1 rest2 hdf
              (fun x hx => hvals x (List.mem_cons_of_mem _ hx)) h3
            exact key_pv_glue hvsw (by rw [if_pos hv]) hsu hsok hssp hru hrok hrsp
      · simp only [if_neg hv] at hrun
        split at hrun
        · exact absurd hrun (by simp)
        · rename_i su h2
          obtain ⟨su1, su2⟩ := su
          split at hrun
          · exact absurd hrun (by simp)
          · rename_i rest h3
            obtain ⟨rest1, rest2⟩ := rest
            simp only [Except.ok.injEq, Prod.mk.injEq] at hrun
            obtain ⟨hns, hu2⟩ := hrun
            subst hns
            subst hu2
            obtain ⟨hsu, hsok, hssp⟩ :=
              hs _ _ _ _ _ (spaceFree_filter _ hdf) h2
            obtain ⟨hru, hrok, hrsp⟩ := ih df col amt su2 d rest1 rest2 hdf
              (fun x hx => hvals x (List.mem_cons_of_mem _ hx)) h3
            exact key_pv_glue hvsw (by rw [if_neg hv]) hsu hsok hssp hru hrok hrsp

lemma vals_space_free {df : List Row} {col : String}
    (hdf : spaceFreeTable df) :
    ∀ v ∈ dedupFirst (df.map (fun r => r.get col)) [],
      startsWithSpace v = false := by
  intro v hv
  obtain ⟨r, hr, hrv⟩ := List.mem_map.mp (dedupFirst_subset hv)
  rw [← hrv]
  exact sws_get hdf hr col

lemma key_cat : ∀ (cat : IssueCategory) (df : List Row) (used : List String)
    (d : ℤ) (amt : String) (ns : List SankeyNode) (u2 : List String),
    spaceFreeTable df →
    create_issue_nodes_cat cat df used d amt = .ok (ns, u2) →
    u2 = used ++ preorderLabels ns ∧ labelsOk used (preorderLabels ns) ∧
    ∀ l ∈ preorderLabels ns, startsWithSpace (strip1 l) = false := by
  intro cat
  induction cat with
  | leaf col =>
    intro df used d amt ns u2 hdf hrun
    rw [create_issue_nodes_cat] at hrun
    split at hrun
    · simp only [Except.ok.injEq, Prod.mk.injEq] at hrun
      obtain ⟨h1, h2⟩ := hrun
      subst h1
      subst h2
      simp [preorderLabels, labelsOk]
    · refine key_pv _ ?_ _ df col amt used d ns u2 hdf (vals_space_free hdf) hrun
      intro df' u' d' ns' u2' _ h
      simp only [Except.ok.injEq, Prod.mk.injEq] at h
      obtain ⟨h1, h2⟩ := h
      subst h1
      subst h2
      simp [preorderLabels, labelsOk]
  | node col sc ih =>
    intro df used d amt ns u2 hdf hrun
    rw [create_issue_nodes_cat] at hrun
    split at hrun
    · simp only [Except.ok.injEq, Prod.mk.injEq] at hrun
      obtain ⟨h1, h2⟩ := hrun
      subst h1
      subst h2
      simp [preorderLabels, labelsOk]
    · refine key_pv _ ?_ _ df col amt used d ns u2 hdf (vals_space_free hdf) hrun
      intro df' u' d' ns' u2' hdf' h
      exact ih df' u' d' amt ns' u2' hdf' h

lemma key_cin {df : List Row} {c : Option IssueCategory} {used : List String}
    {d : ℤ} {amt : String} {ns : List SankeyNode} {u2 : List String}
    (hdf : spaceFreeTable df)
    (hrun : create_issue_nodes df c used d amt = .ok (ns, u2)) :
    u2 = used ++ preorderLabels ns ∧ labelsOk used (preorderLabels ns) ∧
    ∀ l ∈ preorderLabels ns, startsWithSpace (strip1 l) = false := by
  cases c with
  | none =>
    rw [create_issue_nodes] at hrun
    simp only [Except.ok.injEq, Prod.mk.injEq] at hrun
    obtain ⟨h1, h2⟩ := hrun
    subst h1
    subst h2
    simp [preorderLabels, labelsOk]
  | some cat =>
    rw [create_issue_nodes] at hrun
    exact key_cat cat df used d amt ns u2 hdf hrun

/-- C2 (corrected): in the issue tree built with a fresh
`used_category_names` list, whenever a category value has already been
used as a label earlier in the traversal the new node's label is the
value with exactly one leading space prepended (the `labelsOk`
discipline), and all labels are unique PROVIDED no cell value starts
with a space and no category value is processed more than twice across
the traversal; a value at exactly two positions thus gets the literal
value once and the single-leading-space variant once.  (The original
claim of unconditional uniqueness fails: a value occurring at three or
more positions yields the leading-space label twice.) -/
theorem c2_label_dedup_unique_amended
    (df : List Row) (cat : IssueCategory) (d : ℤ) (amt : String)
    (ns : List SankeyNode) (u2 : List String)
    (hrun : create_issue_nodes df (some cat) [] d amt = .ok (ns, u2))
    (hdf : spaceFreeTable df)
    (hcount : ∀ v ∈ (preorderLabels ns).map strip1,
      ((preorderLabels ns).map strip1).count v ≤ 2) :
    labelsOk [] (preorderLabels ns) ∧ (preorderLabels ns).Nodup := by
  obtain ⟨hev, hok, hsp⟩ := key_cin hdf hrun
  refine ⟨hok, ?_⟩
  have hnd := labelsOk_nodup (preorderLabels ns) [] hok hsp (by simp)
    (fun v => ?_) List.nodup_nil (by simp)
  · simpa using hnd
  · by_cases hv : v ∈ (preorderLabels ns).map strip1
    · simpa using hcount v hv
    · have : ((preorderLabels ns).map strip1).count v = 0 :=
        List.count_eq_zero.mpr hv
      simp [this]

attribute [local semireducible] Rat.add Rat.sub Rat.mul Rat.inv Rat.ofScientific in
/-- C1 (code bug): in `_create_issue_nodes`, when the display label of a
duplicated category value "b" is rewritten to " b", the narrowing of the
table for the recursive sub-category call ALSO uses the rewritten label
" b" (the `category` variable after reassignment), which matches no row,
so the node loses its whole subtree — even though rows whose column
value contains the original value "b" exist.  This contradicts the
claim (and the stated intent) that the original value is used for
sub-filtering. -/
theorem c1_subfilter_uses_rewritten_label :
    create_issue_nodes tableDupB (some chainTwo) [] 2 "amt" =
      .ok ([SankeyNode.mk 1 "a" [SankeyNode.mk 1 "b" []],
            SankeyNode.mk 2 " b" []], ["a", "b", " b"]) ∧
    tableDupB.filter
      (fun r => strContains (strLower (r.get "c1")) (strLower " b")) = [] ∧
    tableDupB.filter
      (fun r => strContains (strLower (r.get "c1")) (strLower "b")) =
      [⟨[("c1", "b"), ("c2", "c"), ("amt", "2,00")]⟩] :=
  ⟨rfl, rfl, rfl⟩

attribute [local semireducible] Rat.add Rat.sub Rat.mul Rat.inv Rat.ofScientific in
/-- C2 counterexample: a parse of a table in which the category value
"v" occurs at three positions of the hierarchy produces two distinct
nodes that both bear the label " v", so labels in the assembled graph
are NOT unique. -/
theorem c2_label_unique_counterexample :
    parse_csv cfgTriple tableTripleV 2024 3 2 =
      .ok ⟨"inc", [SankeyNode.mk 3 "oth" []],
        [SankeyNode.mk 1 "a" [SankeyNode.mk 1 "v" []],
         SankeyNode.mk 1 "b" [SankeyNode.mk 1 " v" []],
         SankeyNode.mk 1 "c" [SankeyNode.mk 1 " v" []]]⟩ ∧
    ¬ (preorderLabels
        [SankeyNode.mk 1 "a" [SankeyNode.mk 1 "v" []],
         SankeyNode.mk 1 "b" [SankeyNode.mk 1 " v" []],
         SankeyNode.mk 1 "c" [SankeyNode.mk 1 " v" []]]).Nodup := by
  refine ⟨rfl, ?_⟩
  simp only [preorderLabels]
  decide

attribute [local semireducible] Rat.add Rat.sub Rat.mul Rat.inv Rat.ofScientific in
/-- C2 witness: on the table in which "Rent" occurs at exactly two
positions, the amended theorem applies and yields the label discipline
together with uniqueness — one node labelled "Rent", the other " Rent". -/
theorem c2_label_dedup_unique_witness :
    create_issue_nodes tableRentTwice (some chainTwo) [] 2 "amt" =
      .ok ([SankeyNode.mk 1 "x" [SankeyNode.mk 1 "Rent" []],
            SankeyNode.mk 2 " Rent" []], ["x", "Rent", " Rent"]) ∧
    labelsOk [] (preorderLabels
      [SankeyNode.mk 1 "x" [SankeyNode.mk 1 "Rent" []],
       SankeyNode.mk 2 " Rent" []]) ∧
    (preorderLabels
      [SankeyNode.mk 1 "x" [SankeyNode.mk 1 "Rent" []],
       SankeyNode.mk 2 " Rent" []]).Nodup :=
  ⟨rfl,
    c2_label_dedup_unique_amended tableRentTwice chainTwo 2 "amt"
      [SankeyNode.mk 1 "x" [SankeyNode.mk 1 "Rent" []],
       SankeyNode.mk 2 " Rent" []] ["x", "Rent", " Rent"] rfl
      (by unfold spaceFreeTable; decide)
      (by simp only [preorderLabels]; decide)⟩

lemma normalizeAmount_error {c : String} {e : ParseError}
    (h : normalizeAmount c = .error e) : ∃ raw, e = .formatError raw := by
  rw [normalizeAmount] at h
  split at h
  · exact absurd h (by simp)
  · exact ⟨c, (Except.error.inj h).symm⟩

lemma sumAmounts_error : ∀ {cells : List String} {e : ParseError},
    sumAmounts cells = .error e → ∃ raw, e = .formatError raw := by
  intro cells
  induction cells with
  | nil =>
    intro e h
    rw [sumAmounts] at h
    exact absurd h (by simp)
  | cons c cs ih =>
    intro e h
    rw [sumAmounts] at h
    split at h
    · exact normalizeAmount_error (by rw [‹normalizeAmount c = _›]; exact (Except.error.inj h) ▸ rfl)
    · split at h
      · rename_i h2
        exact ih (h2.trans (congrArg _ (Except.error.inj h)))
      · exact absurd h (by simp)

lemma get_sum_error {cells : List String} {e : ParseError}
    (h : get_sum cells = .error e) : ∃ raw, e = .formatError raw := by
  rw [get_sum] at h
  split at h
  · rename_i h1
    exact sumAmounts_error (h1.trans (congrArg _ (Except.error.inj h)))
  · exact absurd h (by simp)

lemma gsfvic_error {df : List Row} {column : String} {amt : String} :
    ∀ {vals : List String} {e : ParseError},
    get_sum_for_value_in_column df column vals amt = .error e →
    ∃ raw, e = .formatError raw := by
  intro vals
  induction vals with
  | nil =>
    intro e h
    rw [get_sum_for_value_in_column] at h
    exact absurd h (by simp)
  | cons v vs ih =>
    intro e h
    rw [get_sum_for_value_in_column] at h
    split at h
    · rename_i h1
      exact get_sum_error (h1.trans (congrArg _ (Except.error.inj h)))
    · split at h
      · rename_i h2
        exact ih (h2.trans (congrArg _ (Except.error.inj h)))
      · exact absurd h (by simp)

lemma inff_error {df : List Row} {amt : String} :
    ∀ {fs : List IncomeFilter} {e : ParseError},
    income_nodes_for_filters df fs amt = .error e →
    ∃ raw, e = .formatError raw := by
  intro fs
  induction fs with
  | nil =>
    intro e h
    rw [income_nodes_for_filters] at h
    exact absurd h (by simp)
  | cons f rest ih =>
    intro e h
    rw [income_nodes_for_filters] at h
    split at h
    · rename_i h1
      exact gsfvic_error (h1.trans (congrArg _ (Except.error.inj h)))
    · split at h
      · rename_i h2
        exact ih (h2.trans (congrArg _ (Except.error.inj h)))
      · exact absurd h (by simp)

lemma infa_error {df : List Row} {amt : String} :
    ∀ {accounts : List AccountSource} {e : ParseError},
    income_nodes_for_accounts df accounts amt = .error e →
    ∃ raw, e = .formatError raw := by
  intro accounts
  induction accounts with
  | nil =>
    intro e h
    rw [income_nodes_for_accounts] at h
    exact absurd h (by simp)
  | cons a rest ih =>
    intro e h
    rw [income_nodes_for_accounts] at h
    split at h
    · rename_i h1
      exact inff_error (h1.trans (congrArg _ (Except.error.inj h)))
    · split at h
      · rename_i h2
        exact ih (h2.trans (congrArg _ (Except.error.inj h)))
      · exact absurd h (by simp)

lemma create_income_nodes_error {df : List Row}
    {accounts : List AccountSource} {fs : List DataFrameFilter}
    {amt oth : String} {e : ParseError}
    (h : create_income_nodes df accounts fs amt oth = .error e) :
    ∃ raw, e = .formatError raw := by
  rw [create_income_nodes] at h
  split at h
  · rename_i h1
    exact infa_error (h1.trans (congrArg _ (Except.error.inj h)))
  · split at h
    · rename_i h2
      exact get_sum_error (h2.trans (congrArg _ (Except.error.inj h)))
    · exact absurd h (by simp)

lemma pv_error
    {sub : List Row → List String → ℤ → Except ParseError (List SankeyNode × List String)}
    (hs : ∀ df u d e, sub df u d = .error e → ∃ raw, e = .formatError raw)
    {df : List Row} {col amt : String} :
    ∀ {vals : List String} {used : List String} {d : ℤ} {e : ParseError},
    processValuesWith sub df col amt vals used d = .error e →
    ∃ raw, e = .formatError raw := by
  intro vals
  induction vals with
  | nil =>
    intro used d e h
    rw [processValuesWith] at h
    exact absurd h (by simp)
  | cons v vs ih =>
    intro used d e h
    rw [processValuesWith] at h
    split at h
    · rename_i h1
      exact gsfvic_error (h1.trans (congrArg _ (Except.error.inj h)))
    · simp only [] at h
      split at h
      · rename_i h2
        exact hs _ _ _ _ (h2.trans (congrArg _ (Except.error.inj h)))
      · split at h
        · rename_i h3
          exact ih (h3.trans (congrArg _ (Except.error.inj h)))
        · exact absurd h (by simp)

lemma cicat_error : ∀ (cat : IssueCategory) {df : List Row}
    {used : List String} {d : ℤ} {amt : String} {e : ParseError},
    create_issue_nodes_cat cat df used d amt = .error e →
    ∃ raw, e = .formatError raw := by
  intro cat
  induction cat with
  | leaf col =>
    intro df used d amt e h
    rw [create_issue_nodes_cat] at h
    split at h
    · exact absurd h (by simp)
    · refine pv_error ?_ h
      intro df' u' d' e' h'
      exact absurd h' (by simp)
  | node col sc ih =>
    intro df used d amt e h
    rw [create_issue_nodes_cat] at h
    split at h
    · exact absurd h (by simp)
    · refine pv_error ?_ h
      intro df' u' d' e' h'
      exact ih h'

lemma cin_error {df : List Row} {c : Option IssueCategory}
    {used : List String} {d : ℤ} {amt : String} {e : ParseError}
    (h : create_issue_nodes df c used d amt = .error e) :
    ∃ raw, e = .formatError raw := by
  cases c with
  | none =>
    rw [create_issue_nodes] at h
    exact absurd h (by simp)
  | some cat =>
    rw [create_issue_nodes] at h
    exact cicat_error cat h

lemma call_error {df : List Row} {cat : IssueCategory}
    {used : List String} {d : ℤ} {fs : List DataFrameFilter} {amt : String}
    {e : ParseError}
    (h : create_all_issue_nodes df cat used d fs amt = .error e) :
    ∃ raw, e = .formatError raw := by
  rw [create_all_issue_nodes] at h
  exact cin_error h

lemma get_depth_pos (cat : IssueCategory) : 1 ≤ cat.get_depth := by
  cases cat with
  | leaf c => simp [IssueCategory.get_depth]
  | node c s => simp [IssueCategory.get_depth]

lemma month_msg_ne (s : String) :
    ("analysis_month_column_name must be set if month is not None" : String) ≠
      "issue_level must be less than or equal to " ++ s := by
  intro h
  have hd := congrArg String.data h
  rw [String.data_append] at hd
  have hh := congrArg List.head? hd
  rw [List.head?_append_of_ne_nil] at hh
  · have h1 : ("analysis_month_column_name must be set if month is not None" : String).data.head? = some 'a' := by decide
    have h2 : ("issue_level must be less than or equal to " : String).data.head? = some 'i' := by decide
    rw [h1, h2] at hh
    exact absurd (Option.some.inj hh) (by decide)
  · decide

/-- C5 (corrected): parse with issue depth below 1 fails with the
configuration error whose message is "issue_level must be greater than
0" (the claim quotes "issue_depth ...", but the source message says
"issue_level"); parse with issue depth above the hierarchy depth fails
with the configuration error naming the maximum; and for a depth within
bounds neither of those two errors is raised. -/
theorem c5_depth_bounds_amended (cfg : ParserConfig) (table : List Row)
    (year month d : ℤ) :
    (d < 1 → parse_csv cfg table year month d =
      .error (.configError "issue_level must be greater than 0")) ∧
    ((cfg.issues_hierarchy.get_depth : ℤ) < d →
      parse_csv cfg table year month d =
        .error (.configError ("issue_level must be less than or equal to " ++
          toString cfg.issues_hierarchy.get_depth))) ∧
    (1 ≤ d → d ≤ (cfg.issues_hierarchy.get_depth : ℤ) →
      parse_csv cfg table year month d ≠
        .error (.configError "issue_level must be greater than 0") ∧
      parse_csv cfg table year month d ≠
        .error (.configError ("issue_level must be less than or equal to " ++
          toString cfg.issues_hierarchy.get_depth))) := by
  refine ⟨?_, ?_, ?_⟩
  · intro hd
    rw [parse_csv, if_pos hd]
  · intro hd
    have h1 : ¬ d < 1 := by
      have := get_depth_pos cfg.issues_hierarchy
      omega
    rw [parse_csv, if_neg h1, if_pos hd]
  · intro hd1 hd2
    have h1 : ¬ d < 1 := by omega
    have h2 : ¬ (cfg.issues_hierarchy.get_depth : ℤ) < d := by omega
    rw [parse_csv, if_neg h1, if_neg h2]
    cases hmc : cfg.analysis_month_column_name with
    | none =>
      simp only []
      constructor
      · intro h
        simp only [Except.error.injEq, ParseError.configError.injEq] at h
        exact absurd h (by decide)
      · intro h
        simp only [Except.error.injEq, ParseError.configError.injEq] at h
        exact month_msg_ne _ h
    | some mc =>
      simp only []
      constructor
      · intro h
        split at h
        · rename_i e h3
          obtain ⟨raw, hraw⟩ := create_income_nodes_error h3
          rw [hraw] at h
          simp at h
        · split at h
          · rename_i e h4
            obtain ⟨raw, hraw⟩ := call_error h4
            rw [hraw] at h
            simp at h
          · split at h
            · simp at h
            · simp at h
      · intro h
        split at h
        · rename_i e h3
          obtain ⟨raw, hraw⟩ := create_income_nodes_error h3
          rw [hraw] at h
          simp at h
        · split at h
          · rename_i e h4
            obtain ⟨raw, hraw⟩ := call_error h4
            rw [hraw] at h
            simp at h
          · split at h
            · simp at h
            · simp at h

/-- C5 counterexample: at issue depth 0 the parser raises the
configuration error with message "issue_level must be greater than 0",
which is not the message "issue_depth must be greater than 0" quoted by
the claim. -/
theorem c5_message_counterexample :
    parse_csv cfgCatIncome [] 2024 3 0 =
      .error (.configError "issue_level must be greater than 0") ∧
    "issue_level must be greater than 0" ≠ "issue_depth must be greater than 0" :=
  ⟨rfl, by decide⟩

/-- C5 witness: the amended bounds at a concrete configuration of
hierarchy depth 1 — depth 0 and depth 5 raise the two configuration
errors, depth 1 raises neither. -/
theorem c5_depth_bounds_witness :
    parse_csv cfgCatIncome tableMay 2024 3 0 =
      .error (.configError "issue_level must be greater than 0") ∧
    parse_csv cfgCatIncome tableMay 2024 3 5 =
      .error (.configError ("issue_level must be less than or equal to " ++
        toString cfgCatIncome.issues_hierarchy.get_depth)) ∧
    parse_csv cfgCatIncome tableMay 2024 3 1 ≠
      .error (.configError "issue_level must be greater than 0") :=
  ⟨(c5_depth_bounds_amended cfgCatIncome tableMay 2024 3 0).1 (by decide),
   (c5_depth_bounds_amended cfgCatIncome tableMay 2024 3 5).2.1 (by decide),
   ((c5_depth_bounds_amended cfgCatIncome tableMay 2024 3 1).2.2 (by decide)
     (by decide)).1⟩

lemma foldl_sub_amount : ∀ (ns : List SankeyNode) (t : ℚ),
    ns.foldl (fun acc n => acc - n.amount) t =
      t - (ns.map SankeyNode.amount).sum
  | [], t => by simp
  | n :: ns, t => by
    rw [List.foldl_cons, foldl_sub_amount ns (t - n.amount)]
    simp
    ring

lemma inff_labels {df : List Row} {amt : String} :
    ∀ {fs : List IncomeFilter} {ns : List SankeyNode},
    income_nodes_for_filters df fs amt = .ok ns →
    ns.map SankeyNode.label = fs.map IncomeFilter.sankey_label := by
  intro fs
  induction fs with
  | nil =>
    intro ns h
    rw [income_nodes_for_filters] at h
    simp only [Except.ok.injEq] at h
    subst h
    simp
  | cons f rest ih =>
    intro ns h
    rw [income_nodes_for_filters] at h
    split at h
    · exact absurd h (by simp)
    · split at h
      · exact absurd h (by simp)
      · rename_i ns2 h2
        simp only [Except.ok.injEq] at h
        subst h
        simp only [List.map_cons, SankeyNode.label]
        rw [ih h2]

lemma infa_labels {df : List Row} {amt : String} :
    ∀ {accounts : List AccountSource} {ns : List SankeyNode},
    income_nodes_for_accounts df accounts amt = .ok ns →
    ns.map SankeyNode.label =
      (accounts.map (fun a => a.income_filters.map IncomeFilter.sankey_label)).join := by
  intro accounts
  induction accounts with
  | nil =>
    intro ns h
    rw [income_nodes_for_accounts] at h
    simp only [Except.ok.injEq] at h
    subst h
    simp
  | cons a rest ih =>
    intro ns h
    rw [income_nodes_for_accounts] at h
    split at h
    · exact absurd h (by simp)
    · rename_i nsA hA
      split at h
      · exact absurd h (by simp)
      · rename_i nsB hB
        simp only [Except.ok.injEq] at h
        subst h
        rw [List.map_append, inff_labels hA, ih hB]
        simp

/-- C3 (confirmed): the income aggregator emits one node per declared
income filter, in account-then-filter declaration order, followed by a
final "other income" node whose amount is the total absolute sum of the
amount column over the filter-narrowed table minus the sum of the
previously emitted amounts (no clamping); consequently the amounts of
all emitted nodes sum to exactly that total. -/
theorem c3_income_reconciliation (df : List Row)
    (accounts : List AccountSource) (fs : List DataFrameFilter)
    (amt oth : String) (nodes : List SankeyNode)
    (hrun : create_income_nodes df accounts fs amt oth = .ok nodes) :
    ∃ (ns0 : List SankeyNode) (total : ℚ),
      get_sum ((applyDataFrameFilters df fs).map (fun r => r.get amt)) =
        .ok total ∧
      nodes = ns0 ++
        [SankeyNode.mk (total - (ns0.map SankeyNode.amount).sum) oth []] ∧
      ns0.map SankeyNode.label =
        (accounts.map (fun a => a.income_filters.map IncomeFilter.sankey_label)).join ∧
      (nodes.map SankeyNode.amount).sum = total := by
  rw [create_income_nodes] at hrun
  split at hrun
  · exact absurd hrun (by simp)
  · rename_i ns0 h1
    split at hrun
    · exact absurd hrun (by simp)
    · rename_i total h2
      simp only [Except.ok.injEq] at hrun
      subst hrun
      refine ⟨ns0, total, h2, ?_, infa_labels h1, ?_⟩
      · rw [foldl_sub_amount]
      · rw [foldl_sub_amount]
        simp only [List.map_append, List.map_cons, List.map_nil,
          SankeyNode.amount, List.sum_append]
        simp

attribute [local semireducible] Rat.add Rat.sub Rat.mul Rat.inv Rat.ofScientific in
/-- C3 witness: one account with one salary filter over a two-row table
— the salary node gets 10, the "other income" node absorbs the
remaining 5, and the node amounts sum to the total 15. -/
theorem c3_income_reconciliation_witness :
    create_income_nodes tableIncome [acctMain] [] "amt" "oth" =
      .ok [SankeyNode.mk 10 "Salary" [], SankeyNode.mk 5 "oth" []] ∧
    (∃ (ns0 : List SankeyNode) (total : ℚ),
      get_sum ((applyDataFrameFilters tableIncome []).map (fun r => r.get "amt")) =
        .ok total ∧
      [SankeyNode.mk 10 "Salary" [], SankeyNode.mk 5 "oth" []] = ns0 ++
        [SankeyNode.mk (total - (ns0.map SankeyNode.amount).sum) "oth" []] ∧
      ns0.map SankeyNode.label =
        (([acctMain]).map (fun a => a.income_filters.map IncomeFilter.sankey_label)).join ∧
      (([SankeyNode.mk 10 "Salary" [], SankeyNode.mk 5 "oth" []]).map
        SankeyNode.amount).sum = total) :=
  ⟨rfl, c3_income_reconciliation tableIncome [acctMain] [] "amt" "oth"
    [SankeyNode.mk 10 "Salary" [], SankeyNode.mk 5 "oth" []] rfl⟩

/-- C4 (confirmed): whenever a parse succeeds, the root's issues group
is the issue forest built by `_create_all_issue_nodes`, extended by
exactly one extra node — labelled with the configured "not used income"
name and weighted with the income total minus the top-level issues
total — exactly when that difference is strictly positive, appended
last and not nested; otherwise the issues group is unchanged. -/
theorem c4_unused_income_injection (cfg : ParserConfig) (table : List Row)
    (year month d : ℤ) (mc : String) (root : SankeyRootNode)
    (hmc : cfg.analysis_month_column_name = some mc)
    (hrun : parse_csv cfg table year month d = .ok root) :
    ∃ (incomes issues : List SankeyNode) (u2 : List String),
      create_income_nodes
        (get_relevant_data_from_csv table cfg.analysis_year_column_name mc year month)
        cfg.income_sources cfg.income_data_frame_fitlers cfg.amount_out_name
        cfg.other_income_name = .ok incomes ∧
      create_all_issue_nodes
        (get_relevant_data_from_csv table cfg.analysis_year_column_name mc year month)
        cfg.issues_hierarchy [] d cfg.issues_data_frame_fitlers
        cfg.amount_out_name = .ok (issues, u2) ∧
      root.incomes = incomes ∧
      (0 < (SankeyRootNode.mk cfg.income_node_name incomes issues).get_income_amount -
          (SankeyRootNode.mk cfg.income_node_name incomes issues).get_issues_amount →
        root.issues = issues ++
          [SankeyNode.mk
            ((SankeyRootNode.mk cfg.income_node_name incomes issues).get_income_amount -
              (SankeyRootNode.mk cfg.income_node_name incomes issues).get_issues_amount)
            cfg.not_used_income_name []]) ∧
      ((SankeyRootNode.mk cfg.income_node_name incomes issues).get_income_amount -
          (SankeyRootNode.mk cfg.income_node_name incomes issues).get_issues_amount ≤ 0 →
        root.issues = issues) := by
  rw [parse_csv, hmc] at hrun
  simp only [] at hrun
  split at hrun
  · exact absurd hrun (by simp)
  · split at hrun
    · exact absurd hrun (by simp)
    · split at hrun
      · exact absurd hrun (by simp)
      · rename_i incomes hInc
        split at hrun
        · exact absurd hrun (by simp)
        · rename_i issuesPair hIss
          obtain ⟨issues, u2⟩ := issuesPair
          refine ⟨incomes, issues, u2, hInc, hIss, ?_⟩
          split at hrun
          · rename_i hpos
            simp only [Except.ok.injEq] at hrun
            subst hrun
            refine ⟨rfl, fun _ => rfl, fun hle => absurd hpos (by
              simp only [SankeyRootNode.get_income_amount,
                SankeyRootNode.get_issues_amount] at hle ⊢
              linarith)⟩
          · rename_i hneg
            simp only [Except.ok.injEq] at hrun
            subst hrun
            refine ⟨rfl, fun hpos => absurd hpos (by
              simp only [SankeyRootNode.get_income_amount,
                SankeyRootNode.get_issues_amount] at hneg ⊢
              intro h
              exact hneg (by linarith)), fun _ => rfl⟩

attribute [local semireducible] Rat.add Rat.sub Rat.mul Rat.inv Rat.ofScientific in
/-- C4 witness: with income 5 and categorized issues 3, the parse
appends exactly one "not used income" node of amount 2 as the last
top-level issue node. -/
theorem c4_unused_income_injection_witness :
    parse_csv cfgCatFiltered tableC4 2024 3 1 =
      .ok ⟨"inc", [SankeyNode.mk 5 "oth" []],
        [SankeyNode.mk 3 "food" [], SankeyNode.mk 2 "nui" []]⟩ ∧
    (∃ (incomes issues : List SankeyNode) (u2 : List String),
      create_income_nodes
        (get_relevant_data_from_csv tableC4
          cfgCatFiltered.analysis_year_column_name "mon" 2024 3)
        cfgCatFiltered.income_sources cfgCatFiltered.income_data_frame_fitlers
        cfgCatFiltered.amount_out_name cfgCatFiltered.other_income_name =
          .ok incomes ∧
      create_all_issue_nodes
        (get_relevant_data_from_csv tableC4
          cfgCatFiltered.analysis_year_column_name "mon" 2024 3)
        cfgCatFiltered.issues_hierarchy [] 1
        cfgCatFiltered.issues_data_frame_fitlers
        cfgCatFiltered.amount_out_name = .ok (issues, u2) ∧
      (SankeyRootNode.mk "inc" [SankeyNode.mk 5 "oth" []]
        [SankeyNode.mk 3 "food" [], SankeyNode.mk 2 "nui" []]).incomes = incomes ∧
      (0 < (SankeyRootNode.mk cfgCatFiltered.income_node_name incomes issues).get_income_amount -
          (SankeyRootNode.mk cfgCatFiltered.income_node_name incomes issues).get_issues_amount →
        (SankeyRootNode.mk "inc" [SankeyNode.mk 5 "oth" []]
          [SankeyNode.mk 3 "food" [], SankeyNode.mk 2 "nui" []]).issues = issues ++
          [SankeyNode.mk
            ((SankeyRootNode.mk cfgCatFiltered.income_node_name incomes issues).get_income_amount -
              (SankeyRootNode.mk cfgCatFiltered.income_node_name incomes issues).get_issues_amount)
            cfgCatFiltered.not_used_income_name []]) ∧
      ((SankeyRootNode.mk cfgCatFiltered.income_node_name incomes issues).get_income_amount -
          (SankeyRootNode.mk cfgCatFiltered.income_node_name incomes issues).get_issues_amount ≤ 0 →
        (SankeyRootNode.mk "inc" [SankeyNode.mk 5 "oth" []]
          [SankeyNode.mk 3 "food" [], SankeyNode.mk 2 "nui" []]).issues = issues)) :=
  ⟨rfl, c4_unused_income_injection cfgCatFiltered tableC4 2024 3 1 "mon"
    ⟨"inc", [SankeyNode.mk 5 "oth" []],
      [SankeyNode.mk 3 "food" [], SankeyNode.mk 2 "nui" []]⟩ rfl rfl⟩

lemma cicat_depth0 (cat : IssueCategory) (df : List Row)
    (used : List String) (d : ℤ) (amt : String) (hd : d < 1) :
    create_issue_nodes_cat cat df used d amt = .ok ([], used) := by
  cases cat with
  | leaf col => rw [create_issue_nodes_cat, if_pos hd]
  | node col sc => rw [create_issue_nodes_cat, if_pos hd]

lemma cin_depth0 (c : Option IssueCategory) (df : List Row)
    (used : List String) (d : ℤ) (amt : String) (hd : d < 1) :
    create_issue_nodes df c used d amt = .ok ([], used) := by
  cases c with
  | none => rw [create_issue_nodes]
  | some cat => rw [create_issue_nodes]; exact cicat_depth0 cat df used d amt hd

lemma pv_children
    {sub : List Row → List String → ℤ → Except ParseError (List SankeyNode × List String)}
    {df : List Row} {col amt : String} {d : ℤ}
    (hsub : ∀ df' u', sub df' u' (d - 1) = .ok ([], u')) :
    ∀ {vals used ns u2},
    processValuesWith sub df col amt vals used d = .ok (ns, u2) →
    ∀ n ∈ ns, n.linked_nodes = [] := by
  intro vals
  induction vals with
  | nil =>
    intro used ns u2 h
    rw [processValuesWith] at h
    simp only [Except.ok.injEq, Prod.mk.injEq] at h
    obtain ⟨h1, _⟩ := h
    subst h1
    simp
  | cons v vs ih =>
    intro used ns u2 h
    rw [processValuesWith] at h
    split at h
    · exact absurd h (by simp)
    · simp only [] at h
      rw [hsub] at h
      simp only [] at h
      split at h
      · exact absurd h (by simp)
      · rename_i rest h3
        simp only [Except.ok.injEq, Prod.mk.injEq] at h
        obtain ⟨h1, _⟩ := h
        subst h1
        intro n hn
        rcases List.mem_cons.mp hn with hn | hn
        · rw [hn]
          simp [SankeyNode.linked_nodes]
        · exact ih h3 n hn

/-- C7 (confirmed): the issue-tree builder returns the empty list when
the category chain is absent or the remaining depth is below 1, and
with remaining depth exactly 1 no returned node has linked children,
even when the chain has further sub-categories. -/
theorem c7_depth_truncation :
    (∀ (df : List Row) (used : List String) (d : ℤ) (amt : String),
      create_issue_nodes df none used d amt = .ok ([], used)) ∧
    (∀ (df : List Row) (c : Option IssueCategory) (used : List String)
      (d : ℤ) (amt : String), d < 1 →
      create_issue_nodes df c used d amt = .ok ([], used)) ∧
    (∀ (df : List Row) (cat : IssueCategory) (used : List String)
      (amt : String) (ns : List SankeyNode) (u2 : List String),
      create_issue_nodes df (some cat) used 1 amt = .ok (ns, u2) →
      ∀ n ∈ ns, n.linked_nodes = []) := by
  refine ⟨?_, ?_, ?_⟩
  · intro df used d amt
    rw [create_issue_nodes]
  · intro df c used d amt hd
    exact cin_depth0 c df used d amt hd
  · intro df cat used amt ns u2 h
    rw [create_issue_nodes] at h
    cases cat with
    | leaf col =>
      rw [create_issue_nodes_cat] at h
      split at h
      · exact absurd ‹(1 : ℤ) < 1› (by omega)
      · exact pv_children (fun df' u' => rfl) h
    | node col sc =>
      rw [create_issue_nodes_cat] at h
      split at h
      · exact absurd ‹(1 : ℤ) < 1› (by omega)
      · exact pv_children
          (fun df' u' => cicat_depth0 sc df' u' (1 - 1) amt (by omega)) h

attribute [local semireducible] Rat.add Rat.sub Rat.mul Rat.inv Rat.ofScientific in
/-- C7 witness: the two-level hierarchy walked with remaining depth 1
produces only childless top-level nodes; and the terminal cases return
the empty list. -/
theorem c7_depth_truncation_witness :
    create_issue_nodes tableDupB (some chainTwo) [] 1 "amt" =
      .ok ([SankeyNode.mk 1 "a" [], SankeyNode.mk 2 "b" []], ["a", "b"]) ∧
    (0 : ℤ) < 1 ∧
    (∀ n ∈ [SankeyNode.mk 1 "a" [], SankeyNode.mk 2 "b" []],
      n.linked_nodes = ([] : List SankeyNode)) ∧
    create_issue_nodes tableDupB none ["z"] 3 "amt" = .ok ([], ["z"]) ∧
    create_issue_nodes tableDupB (some chainTwo) ["z"] 0 "amt" = .ok ([], ["z"]) :=
  ⟨rfl, by decide,
   c7_depth_truncation.2.2 tableDupB chainTwo [] "amt"
     [SankeyNode.mk 1 "a" [], SankeyNode.mk 2 "b" []] ["a", "b"] rfl,
   c7_depth_truncation.1 tableDupB ["z"] 3 "amt",
   c7_depth_truncation.2.1 tableDupB (some chainTwo) ["z"] 0 "amt" (by decide)⟩

/-- C6 (confirmed): period selection keeps exactly the rows whose year
column equals the year when month is the sentinel 13, and otherwise
exactly the rows whose month column equals the string
`{year}-{month:02d}` with the month zero-padded to two digits; on rows
with month values "2024-03" and "2024-04", selecting 2024-03 keeps
exactly the first and selecting 2024-13 keeps both. -/
theorem c6_period_selection :
    (∀ (table : List Row) (ycol mcol : String) (y m : ℤ) (r : Row),
      r ∈ get_relevant_data_from_csv table ycol mcol y m ↔
        r ∈ table ∧
          (if m = 13 then r.get ycol = toString y
           else r.get mcol = toString y ++ "-" ++ pad2 m)) ∧
    toString (2024 : ℤ) ++ "-" ++ pad2 3 = "2024-03" ∧
    get_relevant_data_from_csv [rowM03, rowM04] "year" "mon" 2024 3 =
      [rowM03] ∧
    get_relevant_data_from_csv [rowM03, rowM04] "year" "mon" 2024 13 =
      [rowM03, rowM04] := by
  refine ⟨?_, by decide, by rfl, by rfl⟩
  intro table ycol mcol y m r
  rw [get_relevant_data_from_csv]
  by_cases hm : m = 13
  · rw [if_pos hm, if_pos hm, List.mem_filter]
    simp
  · rw [if_neg hm, if_neg hm, List.mem_filter]
    simp

attribute [local semireducible] Rat.add Rat.sub Rat.mul Rat.inv Rat.ofScientific in
/-- C8 (confirmed): the numeric normalizer strips the thousands
separator and turns the decimal comma into a dot, so "1.234,56" parses
to 1234.56; the column sum is the absolute value of the total, so a
lone "-50,00" sums to 50; and the empty column sums to 0. -/
theorem c8_normalizer :
    normalizeAmount "1.234,56" = .ok (1234.56 : ℚ) ∧
    get_sum ["-50,00"] = .ok 50 ∧
    get_sum [] = .ok 0 :=
  ⟨rfl, rfl, rfl⟩

lemma applyDFF_nil (fs : List DataFrameFilter) :
    applyDataFrameFilters [] fs = [] := by
  induction fs with
  | nil => rfl
  | cons f fs ih =>
    rw [applyDataFrameFilters, List.foldl_cons, List.filter_nil]
    rw [applyDataFrameFilters] at ih
    exact ih

lemma get_sum_nil : get_sum [] = .ok 0 := by
  rw [get_sum, sumAmounts]
  norm_num

lemma gsfvic_nil {col amt : String} : ∀ (vals : List String),
    get_sum_for_value_in_column [] col vals amt = .ok 0 := by
  intro vals
  induction vals with
  | nil => rw [get_sum_for_value_in_column]
  | cons v vs ih =>
    rw [get_sum_for_value_in_column]
    simp only [List.filter_nil, List.map_nil, get_sum_nil, ih]
    norm_num

lemma inff_zero {amt : String} : ∀ (fs : List IncomeFilter),
    income_nodes_for_filters [] fs amt =
      .ok (fs.map (fun f => SankeyNode.mk 0 f.sankey_label [])) := by
  intro fs
  induction fs with
  | nil => rw [income_nodes_for_filters]; rfl
  | cons f rest ih =>
    rw [income_nodes_for_filters]
    simp only [gsfvic_nil, ih]
    simp

lemma infa_zero {amt : String} : ∀ (accounts : List AccountSource),
    income_nodes_for_accounts [] accounts amt =
      .ok ((accounts.map (fun a =>
        a.income_filters.map (fun f => SankeyNode.mk 0 f.sankey_label []))).join) := by
  intro accounts
  induction accounts with
  | nil => rw [income_nodes_for_accounts]; rfl
  | cons a rest ih =>
    rw [income_nodes_for_accounts]
    simp only [inff_zero, ih]
    simp

lemma create_income_nodes_empty (accounts : List AccountSource)
    (fs : List DataFrameFilter) (amt oth : String) :
    ∃ ns, create_income_nodes [] accounts fs amt oth = .ok ns ∧
      ∀ n ∈ ns, n.amount = 0 := by
  rw [create_income_nodes]
  simp only [applyDFF_nil, infa_zero, List.map_nil, get_sum_nil]
  refine ⟨_, rfl, ?_⟩
  intro n hn
  rcases List.mem_append.mp hn with hn | hn
  · obtain ⟨l, hl, hnl⟩ := List.mem_join.mp hn
    obtain ⟨a, _, rfl⟩ := List.mem_map.mp hl
    obtain ⟨f, _, rfl⟩ := List.mem_map.mp hnl
    rfl
  · rw [List.mem_singleton.mp hn]
    have hsum : ((((accounts.map (fun a =>
        a.income_filters.map (fun f => SankeyNode.mk 0 f.sankey_label []))).join).map
          SankeyNode.amount)).sum = 0 := by
      refine List.sum_eq_zero ?_
      intro x hx
      obtain ⟨n, hn2, rfl⟩ := List.mem_map.mp hx
      obtain ⟨l, hl, hnl⟩ := List.mem_join.mp hn2
      obtain ⟨a, _, rfl⟩ := List.mem_map.mp hl
      obtain ⟨f, _, rfl⟩ := List.mem_map.mp hnl
      rfl
    rw [SankeyNode.amount, foldl_sub_amount, hsum]
    norm_num

lemma cin_empty (c : Option IssueCategory) (used : List String) (d : ℤ)
    (amt : String) : create_issue_nodes [] c used d amt = .ok ([], used) := by
  cases c with
  | none => rw [create_issue_nodes]
  | some cat =>
    rw [create_issue_nodes]
    cases cat with
    | leaf col =>
      rw [create_issue_nodes_cat]
      split
      · rfl
      · rfl
    | node col sc =>
      rw [create_issue_nodes_cat]
      split
      · rfl
      · rfl

/-- C9 (confirmed): a parse whose period selection matches zero rows
does not fail: every income node (the declared ones and the "other
income" node) has amount 0, and the issue group is empty — no unused
income node is appended either. -/
theorem c9_empty_selection_silent_zero (cfg : ParserConfig)
    (table : List Row) (year month d : ℤ) (mc : String)
    (hmc : cfg.analysis_month_column_name = some mc)
    (hd1 : 1 ≤ d) (hd2 : d ≤ (cfg.issues_hierarchy.get_depth : ℤ))
    (hsel : get_relevant_data_from_csv table cfg.analysis_year_column_name
      mc year month = []) :
    ∃ root, parse_csv cfg table year month d = .ok root ∧
      (∀ n ∈ root.incomes, n.amount = 0) ∧ root.issues = [] := by
  obtain ⟨ns, hns, hzero⟩ := create_income_nodes_empty cfg.income_sources
    cfg.income_data_frame_fitlers cfg.amount_out_name cfg.other_income_name
  refine ⟨⟨cfg.income_node_name, ns, []⟩, ?_, hzero, rfl⟩
  rw [parse_csv, hmc]
  rw [if_neg (by omega), if_neg (by omega)]
  simp only []
  rw [hsel, hns]
  simp only []
  rw [create_all_issue_nodes, applyDFF_nil, cin_empty]
  simp only []
  have hsum : ((ns.map SankeyNode.amount)).sum = 0 := by
    refine List.sum_eq_zero ?_
    intro x hx
    obtain ⟨n, hn, rfl⟩ := List.mem_map.mp hx
    exact hzero n hn
  rw [if_neg]
  simp only [SankeyRootNode.get_income_amount, SankeyRootNode.get_issues_amount]
  simp only [List.map_nil, List.sum_nil]
  rw [hsum]
  norm_num

attribute [local semireducible] Rat.add Rat.sub Rat.mul Rat.inv Rat.ofScientific in
/-- C9 witness: selecting 2024-03 over a table whose only row is in
2024-05 matches zero rows; the parse still succeeds, with the salary
and "other income" nodes at amount 0 and an empty issues group. -/
theorem c9_empty_selection_witness :
    get_relevant_data_from_csv tableMay
      cfgCatIncome.analysis_year_column_name "mon" 2024 3 = [] ∧
    (∃ root, parse_csv cfgCatIncome tableMay 2024 3 1 = .ok root ∧
      (∀ n ∈ root.incomes, n.amount = 0) ∧ root.issues = []) :=
  ⟨rfl, c9_empty_selection_silent_zero cfgCatIncome tableMay 2024 3 1 "mon"
    rfl (by decide) (by decide) rfl⟩

attribute [local semireducible] Rat.add Rat.sub Rat.mul Rat.inv Rat.ofScientific in
/-- C10 (confirmed): because issue sums use case-insensitive substring
containment, a table with sibling values "Food" and "Foo" — the latter
a proper substring of the former — lets the "Foo" node also count the
"Food" rows, so the sibling amounts (10 and 15) sum to 25, strictly
more than the absolute total 15 of the amount column over the whole
table. -/
theorem c10_substring_double_count :
    ∃ (df : List Row) (cat : IssueCategory) (amt : String)
      (ns : List SankeyNode) (u2 : List String) (total : ℚ),
      create_issue_nodes df (some cat) [] 1 amt = .ok (ns, u2) ∧
      df.map (fun r => r.get cat.csv_column_name) = ["Food", "Foo"] ∧
      "Foo" ≠ "Food" ∧
      strContains (strLower "Food") (strLower "Foo") = true ∧
      ns.map SankeyNode.amount = [10, 15] ∧
      get_sum (df.map (fun r => r.get amt)) = .ok total ∧
      total < (ns.map SankeyNode.amount).sum :=
  ⟨tableFoo, chainCat1, "amt",
   [SankeyNode.mk 10 "Food" [], SankeyNode.mk 15 "Foo" []], ["Food", "Foo"],
   15, rfl, rfl, by decide, rfl, rfl, rfl, by decide⟩
